import Mathlib

/-!
Verification development for the mini_bitcoin node (a minimal UTXO-based
cryptocurrency MVP in Python).  The definitions below are a shallow embedding
of the repository's core modules:

* `crypto_utils.py` — SHA-256 (modelled concretely, bit for bit) and
  `verify_signature` (the ECDSA library calls are abstracted as oracles,
  while the exception control flow is modelled exactly);
* `transaction.py` — `TxOutput`, `TxInput`, `Transaction`,
  `Transaction.compute_hash`, `Transaction.create_coinbase`;
* `blockchain.py` — `Block`, `Block.compute_hash`, `Blockchain` state,
  `validate_transaction`, `is_valid_new_block`, `update_utxo_set`,
  `is_valid_chain`, `replace_chain`, `add_block`;
* `mempool.py` — insertion-ordered mempool dictionary;
* `p2p.py` — the state effect of `P2PNode.handle_message`.

Machine integers are modelled as `Nat` (all quantities in the source are
non-negative Python ints), Python dicts as insertion-ordered association
lists with the exact overwrite/delete behaviour of CPython dicts, and
Python's `json.dumps(..., sort_keys=True)` canonical serialization is
reproduced byte for byte for the dictionary shapes the source hashes.
-/

namespace MiniBitcoin

/-! ## SHA-256 (`crypto_utils.sha256`, `hashlib.sha256(...).hexdigest()`)

A complete executable SHA-256 over byte lists (each byte a `Nat < 256`),
producing the lowercase hex digest exactly as `hashlib` does.  Words are
`Nat`s reduced mod `2 ^ 32` at every arithmetic step. -/

def pow32 : Nat := 4294967296

/-- Right rotation of a 32-bit word. -/
def rotr32 (n x : Nat) : Nat := ((x >>> n) ||| (x <<< (32 - n))) % pow32

def shaCh (x y z : Nat) : Nat := (x &&& y) ^^^ ((x ^^^ 4294967295) &&& z)

def shaMaj (x y z : Nat) : Nat := (x &&& y) ^^^ (x &&& z) ^^^ (y &&& z)

def bigSigma0 (x : Nat) : Nat := rotr32 2 x ^^^ rotr32 13 x ^^^ rotr32 22 x

def bigSigma1 (x : Nat) : Nat := rotr32 6 x ^^^ rotr32 11 x ^^^ rotr32 25 x

def smallSigma0 (x : Nat) : Nat := rotr32 7 x ^^^ rotr32 18 x ^^^ (x >>> 3)

def smallSigma1 (x : Nat) : Nat := rotr32 17 x ^^^ rotr32 19 x ^^^ (x >>> 10)

/-- The 64 SHA-256 round constants. -/
def shaK : List Nat :=
  [1116352408, 1899447441, 3049323471, 3921009573, 961987163, 1508970993,
   2453635748, 2870763221, 3624381080, 310598401, 607225278, 1426881987,
   1925078388, 2162078206, 2614888103, 3248222580, 3835390401, 4022224774,
   264347078, 604807628, 770255983, 1249150122, 1555081692, 1996064986,
   2554220882, 2821834349, 2952996808, 3210313671, 3336571891, 3584528711,
   113926993, 338241895, 666307205, 773529912, 1294757372, 1396182291,
   1695183700, 1986661051, 2177026350, 2456956037, 2730485921, 2820302411,
   3259730800, 3345764771, 3516065817, 3600352804, 4094571909, 275423344,
   430227734, 506948616, 659060556, 883997877, 958139571, 1322822218,
   1537002063, 1747873779, 1955562222, 2024104815, 2227730452, 2361852424,
   2428436474, 2756734187, 3204031479, 3329325298]

/-- Big-endian bytes (8 of them) of a 64-bit message length. -/
def be64 (v : Nat) : List Nat :=
  (List.range 8).map (fun i => (v >>> (8 * (7 - i))) % 256)

/-- SHA-256 message padding: append 0x80, zero bytes to 56 mod 64, then the
bit length as 8 big-endian bytes. -/
def padBytes (msg : List Nat) : List Nat :=
  msg ++ [128] ++ List.replicate ((119 - msg.length % 64) % 64) 0 ++ be64 (8 * msg.length)

/-- Group bytes into big-endian 32-bit words. -/
def toWords : List Nat → List Nat
  | b0 :: b1 :: b2 :: b3 :: rest => (((b0 * 256 + b1) * 256 + b2) * 256 + b3) :: toWords rest
  | _ => []

/-- Split a byte list into 64-byte chunks (fuel = list length, enough since
every step consumes at least one element; structural so it kernel-reduces). -/
def chunk64Go : Nat → List Nat → List (List Nat)
  | 0, _ => []
  | _, [] => []
  | fuel + 1, x :: l => (x :: l.take 63) :: chunk64Go fuel (l.drop 63)

def chunk64 (l : List Nat) : List (List Nat) := chunk64Go l.length l

/-- One step of the message-schedule extension: append word `w.length`. -/
def stepW (w : List Nat) : List Nat :=
  let i := w.length
  let g := fun j => w.getD (i - j) 0
  w ++ [(g 16 + smallSigma0 (g 15) + g 7 + smallSigma1 (g 2)) % pow32]

def extendW : Nat → List Nat → List Nat
  | 0, w => w
  | k + 1, w => extendW k (stepW w)

/-- The eight 32-bit working variables / hash state. -/
structure H8 where
  a : Nat
  b : Nat
  c : Nat
  d : Nat
  e : Nat
  f : Nat
  g : Nat
  h : Nat
deriving Repr, DecidableEq

def initH : H8 :=
  ⟨1779033703, 3144134277, 1013904242, 2773480762, 1359893119, 2600822924, 528734635, 1541459225⟩

/-- One SHA-256 compression round on `(k, w)`. -/
def shaRound (st : H8) (kw : Nat × Nat) : H8 :=
  let t1 := (st.h + bigSigma1 st.e + shaCh st.e st.f st.g + kw.1 + kw.2) % pow32
  let t2 := (bigSigma0 st.a + shaMaj st.a st.b st.c) % pow32
  ⟨(t1 + t2) % pow32, st.a, st.b, st.c, (st.d + t1) % pow32, st.e, st.f, st.g⟩

/-- Compress one 64-byte chunk into the running hash state. -/
def compressChunk (st : H8) (chunk : List Nat) : H8 :=
  let w := extendW 48 (toWords chunk)
  let r := (shaK.zip w).foldl shaRound st
  ⟨(st.a + r.a) % pow32, (st.b + r.b) % pow32, (st.c + r.c) % pow32, (st.d + r.d) % pow32,
   (st.e + r.e) % pow32, (st.f + r.f) % pow32, (st.g + r.g) % pow32, (st.h + r.h) % pow32⟩

def hexDigit (n : Nat) : Char :=
  if n < 10 then Char.ofNat (48 + n) else Char.ofNat (87 + n)

/-- Lowercase hex rendering of a 32-bit word (8 nibbles, big-endian). -/
def wordHex (v : Nat) : List Char :=
  (List.range 8).map (fun i => hexDigit ((v >>> (4 * (7 - i))) % 16))

/-- `crypto_utils.sha256` on raw bytes: 64-char lowercase hex digest. -/
def sha256 (msg : List Nat) : String :=
  let st := (chunk64 (padBytes msg)).foldl compressChunk initH
  String.mk (wordHex st.a ++ wordHex st.b ++ wordHex st.c ++ wordHex st.d ++
             wordHex st.e ++ wordHex st.f ++ wordHex st.g ++ wordHex st.h)

/-- UTF-8 bytes of the (ASCII) strings this development hashes.  Every string
the source serializes and hashes is ASCII (canonical JSON with default
`ensure_ascii`), so codepoints coincide with UTF-8 bytes. -/
def strBytes (s : String) : List Nat := s.toList.map Char.toNat

/-- `sha256(s.encode())` on a string. -/
def sha256s (s : String) : String := sha256 (strBytes s)

/-- Python's `str.startswith`, modelled on the character list (extensionally
the library behaviour; written structurally so that it kernel-reduces). -/
def pyStartsWith (s pre : String) : Bool := pre.data.isPrefixOf s.data

/-! ## Configuration constants

Modelled from the spec: the repository imports `BLOCK_REWARD` and
`DIFFICULTY_PREFIX` from `mini_bitcoin/config.py`, which is not among the
provided source files.  The spec (section 6) fixes their defaults:
`BLOCK_REWARD` integer 50 and the difficulty prefix the hex string "0000". -/

def BLOCK_REWARD : Nat := 50

/-- Modelled from the spec: `config.DIFFICULTY_PREFIX`, default "0000". -/
def DIFFICULTY_PFX : String := "0000"

/-! ## Transaction model (`transaction.py`) -/

/-- `TxOutput` dataclass: a value bound to an address. -/
structure TxOutput where
  value : Nat
  address : String
deriving Repr, DecidableEq

/-- `TxInput` dataclass: reference to a prior output plus signature/pubkey. -/
structure TxInput where
  txid : String
  index : Nat
  signature : String
  pubkey : String
deriving Repr, DecidableEq

/-- `Transaction` dataclass. -/
structure Transaction where
  inputs : List TxInput
  outputs : List TxOutput
  txid : String
  is_coinbase : Bool
  timestamp : Nat
deriving Repr, DecidableEq

/-! ### Canonical JSON (`json.dumps(..., sort_keys=True)`)

The source hashes `json.dumps(d, sort_keys=True).encode()` of plain dicts of
strings, ints, bools and lists.  With CPython's default separators this
prints keys in sorted order, elements separated by a comma and space, and a
colon and space between key and value.  The dict shapes are fixed by
`Transaction.to_dict` and `Block.compute_hash`, so the encoder is modelled
per shape, with the sorted key order written out.  The only escapes Python
would apply concern quote, backslash, control and non-ASCII characters,
none of which the source ever places in a serialized string field; quote
and backslash are still modelled for faithfulness. -/

def dquote : String := String.singleton (Char.ofNat 34)

def escChar (c : Char) : String :=
  if c = Char.ofNat 34 then String.singleton (Char.ofNat 92) ++ String.singleton (Char.ofNat 34)
  else if c = Char.ofNat 92 then String.singleton (Char.ofNat 92) ++ String.singleton (Char.ofNat 92)
  else String.singleton c

/-- A JSON string literal: quote, escape, quote. -/
def jsonStr (s : String) : String :=
  dquote ++ String.join (s.data.map escChar) ++ dquote

def jsonBool : Bool → String
  | true => "true"
  | false => "false"

def jsonList (items : List String) : String :=
  "[" ++ String.intercalate ", " items ++ "]"

/-- `TxInput.to_dict` serialized: keys sorted index, pubkey, signature, txid. -/
def jsonTxInput (i : TxInput) : String :=
  "\x7b\"index\": " ++ toString i.index ++
  ", \"pubkey\": " ++ jsonStr i.pubkey ++
  ", \"signature\": " ++ jsonStr i.signature ++
  ", \"txid\": " ++ jsonStr i.txid ++ "\x7d"

/-- `TxOutput.to_dict` serialized: keys sorted address, value. -/
def jsonTxOutput (o : TxOutput) : String :=
  "\x7b\"address\": " ++ jsonStr o.address ++
  ", \"value\": " ++ toString o.value ++ "\x7d"

/-- `Transaction.to_dict` serialized: keys sorted inputs, is_coinbase,
outputs, timestamp.  The `txid` field is not part of the dict. -/
def jsonTx (tx : Transaction) : String :=
  "\x7b\"inputs\": " ++ jsonList (tx.inputs.map jsonTxInput) ++
  ", \"is_coinbase\": " ++ jsonBool tx.is_coinbase ++
  ", \"outputs\": " ++ jsonList (tx.outputs.map jsonTxOutput) ++
  ", \"timestamp\": " ++ toString tx.timestamp ++ "\x7d"

/-- `Transaction.compute_hash`: SHA-256 of the canonical JSON of `to_dict`. -/
def Transaction.compute_hash (tx : Transaction) : String := sha256s (jsonTx tx)

/-- `Transaction.create_coinbase` (the current-time default of `timestamp`
passed explicitly): no inputs, one `(block_reward, miner_address)` output,
`is_coinbase` set, `txid` assigned from `compute_hash`. -/
def Transaction.create_coinbase (miner_address : String) (block_reward : Nat)
    (ts : Nat) : Transaction :=
  let tx : Transaction :=
    { inputs := [], outputs := [{ value := block_reward, address := miner_address }],
      txid := "", is_coinbase := true, timestamp := ts }
  { tx with txid := tx.compute_hash }

/-! ## Block model (`blockchain.py`) -/

/-- `Block` dataclass. -/
structure Block where
  index : Nat
  prev_hash : String
  transactions : List Transaction
  nonce : Nat
  timestamp : Nat
  hash : String
deriving Repr, DecidableEq

/-- The serialized block header content of `Block.compute_hash`: keys sorted
index, nonce, prev_hash, timestamp, transactions; the `hash` field is
excluded. -/
def jsonBlock (b : Block) : String :=
  "\x7b\"index\": " ++ toString b.index ++
  ", \"nonce\": " ++ toString b.nonce ++
  ", \"prev_hash\": " ++ jsonStr b.prev_hash ++
  ", \"timestamp\": " ++ toString b.timestamp ++
  ", \"transactions\": " ++ jsonList (b.transactions.map jsonTx) ++ "\x7d"

/-- `Block.compute_hash`: SHA-256 of the canonical JSON of the block content. -/
def Block.compute_hash (b : Block) : String := sha256s (jsonBlock b)

/-! ## Python dict model

The UTXO set is a CPython dict `(txid, output_index) -> TxOutput dict`,
modelled as an insertion-ordered association list: assignment overwrites in
place when the key is present and appends otherwise; `del` removes the
(unique) entry. -/

abbrev UtxoKey := String × Nat

abbrev UtxoSet := List (UtxoKey × TxOutput)

/-- Dict lookup: first (unique) binding of the key. -/
def dictGet : UtxoSet → UtxoKey → Option TxOutput
  | [], _ => none
  | (k', v) :: rest, k => if k' = k then some v else dictGet rest k

/-- `key in dict`. -/
def dictContains (u : UtxoSet) (k : UtxoKey) : Bool := (dictGet u k).isSome

/-- Dict assignment `d[k] = v`: overwrite in place, else append. -/
def dictSet : UtxoSet → UtxoKey → TxOutput → UtxoSet
  | [], k, v => [(k, v)]
  | (k', v') :: rest, k, v =>
      if k' = k then (k, v) :: rest else (k', v') :: dictSet rest k v

/-- `del d[k]`: remove the (first) binding of the key, if any. -/
def dictDelete : UtxoSet → UtxoKey → UtxoSet
  | [], _ => []
  | (k', v') :: rest, k => if k' = k then rest else (k', v') :: dictDelete rest k

/-! ## Blockchain state machine (`blockchain.py`)

The `Blockchain` object holds the chain and the UTXO index.  Persistence
(`save_to_disk` / `load_from_disk`) is best-effort and does not influence
any of the in-memory semantics, so it is not modelled; the stateful methods
become pure functions returning the Python return value together with the
post-call state. -/

structure Blockchain where
  chain : List Block
  utxo_set : UtxoSet
deriving Repr, DecidableEq

/-- A throwaway block used only to totalize `chain[-1]` / `chain[0]`; every
state this development reasons about has a non-empty chain (the constructor
always installs genesis), matching the Python code, which would raise on an
empty chain. -/
def dfltBlock : Block :=
  { index := 0, prev_hash := "", transactions := [], nonce := 0, timestamp := 0, hash := "" }

/-- `Blockchain.last_block`: `self.chain[-1]`. -/
def last_block (bc : Blockchain) : Block := bc.chain.getLastD dfltBlock

/-- The input sums of `Blockchain.validate_transaction`'s loop: `none` when
some input's `(txid, index)` is missing from the UTXO set (the loop returns
false there), otherwise the sum of the referenced values — counted once per
occurrence of an input, exactly as the loop accumulates. -/
def inputSumLoop (u : UtxoSet) : List TxInput → Option Nat
  | [] => some 0
  | inp :: rest =>
    match dictGet u (inp.txid, inp.index) with
    | none => none
    | some out => (inputSumLoop u rest).map (fun s => out.value + s)

/-- `sum(out.value for out in tx.outputs)`. -/
def outputSum (tx : Transaction) : Nat := (tx.outputs.map TxOutput.value).sum

/-- `Blockchain.validate_transaction`: coinbase passes unconditionally;
otherwise every input must be present in the UTXO set and the referenced
values must sum to at least the output total.  (The source's signature
verification is an unimplemented comment block; no signature or pubkey
check is performed.) -/
def validate_transaction (u : UtxoSet) (tx : Transaction) : Bool :=
  if tx.is_coinbase then true
  else
    match inputSumLoop u tx.inputs with
    | none => false
    | some input_sum => if input_sum < outputSum tx then false else true

/-- `Blockchain.is_valid_new_block`: prev-hash link, height increment,
difficulty prefix, hash recomputation, then every transaction validated
against the current UTXO set. -/
def is_valid_new_block (u : UtxoSet) (b prev : Block) : Bool :=
  b.prev_hash == prev.hash &&
  b.index == prev.index + 1 &&
  pyStartsWith b.hash DIFFICULTY_PFX &&
  b.hash == b.compute_hash &&
  b.transactions.all (validate_transaction u)

/-- The UTXO-set effect of one transaction inside `update_utxo_set`: delete
the (non-coinbase) inputs' referents, then insert every output under
`(tx.txid, i)`. -/
def insertOutputs (txid : String) : UtxoSet → Nat → List TxOutput → UtxoSet
  | u, _, [] => u
  | u, i, o :: rest => insertOutputs txid (dictSet u (txid, i) o) (i + 1) rest

def txInKeys (tx : Transaction) : List UtxoKey :=
  tx.inputs.map (fun i => (i.txid, i.index))

def applyTx (u : UtxoSet) (tx : Transaction) : UtxoSet :=
  let afterDel := if tx.is_coinbase then u else (txInKeys tx).foldl dictDelete u
  insertOutputs tx.txid afterDel 0 tx.outputs

/-- `Blockchain.update_utxo_set`: apply every transaction of the block in
order. -/
def update_utxo_set (u : UtxoSet) (b : Block) : UtxoSet :=
  b.transactions.foldl applyTx u

/-- `Blockchain.add_block`: validate against the tip; on success append and
update the UTXO index (the best-effort disk snapshot is not modelled).
Returns the Python boolean and the post-call state. -/
def add_block (bc : Blockchain) (b : Block) : Bool × Blockchain :=
  if is_valid_new_block bc.utxo_set b (last_block bc) then
    (true, { chain := bc.chain ++ [b], utxo_set := update_utxo_set bc.utxo_set b })
  else
    (false, bc)

/-- The per-block structural loop of `Blockchain.is_valid_chain` over indices
`1..len-1`: prev-hash link, difficulty prefix, hash recomputation.  (The
source checks neither height continuity nor transactions here.) -/
def validLinks : List Block → Bool
  | [] => true
  | [_] => true
  | prev :: b :: rest =>
      (b.prev_hash == prev.hash &&
       pyStartsWith b.hash DIFFICULTY_PFX &&
       b.hash == b.compute_hash) &&
      validLinks (b :: rest)

/-- `Blockchain.is_valid_chain`: the candidate's genesis must recompute to
the same hash as the local genesis, then the structural loop. -/
def is_valid_chain (bc : Blockchain) (chain : List Block) : Bool :=
  (chain.headD dfltBlock).compute_hash == (bc.chain.headD dfltBlock).compute_hash &&
  validLinks chain

/-- `Blockchain.replace_chain`: reject unless strictly longer and valid;
on success install the new chain and rebuild the UTXO index from scratch by
replaying every block in order. -/
def replace_chain (bc : Blockchain) (new_chain : List Block) : Bool × Blockchain :=
  if new_chain.length ≤ bc.chain.length then (false, bc)
  else if is_valid_chain bc new_chain then
    (true, { chain := new_chain, utxo_set := new_chain.foldl update_utxo_set [] })
  else (false, bc)

/-- `Blockchain.create_genesis_block` with the two `time.time()` defaults
(coinbase timestamp, block timestamp) passed explicitly: build the genesis
coinbase and block, set the block hash, append without validation, and seed
the UTXO index. -/
def mkGenesisBlock (txTs blockTs : Nat) : Block :=
  let genesis_tx := Transaction.create_coinbase "genesis_miner" BLOCK_REWARD txTs
  let b : Block :=
    { index := 0,
      prev_hash := "0000000000000000000000000000000000000000000000000000000000000000",
      transactions := [genesis_tx], nonce := 0, timestamp := blockTs, hash := "" }
  { b with hash := b.compute_hash }

/-- A fresh `Blockchain()` (no snapshot on disk): genesis appended and the
UTXO index seeded from it. -/
def initBlockchain (txTs blockTs : Nat) : Blockchain :=
  let g := mkGenesisBlock txTs blockTs
  { chain := [g], utxo_set := update_utxo_set [] g }

/-- The chain states reachable from a fresh node by successful `add_block`
and `replace_chain` calls (genesis timestamps arbitrary). -/
inductive Reachable : Blockchain → Prop where
  | genesis (txTs blockTs : Nat) : Reachable (initBlockchain txTs blockTs)
  | addBlock {bc : Blockchain} (b : Block) : Reachable bc →
      (add_block bc b).1 = true → Reachable (add_block bc b).2
  | replaceChain {bc : Blockchain} (c : List Block) : Reachable bc →
      (replace_chain bc c).1 = true → Reachable (replace_chain bc c).2

/-- Total value held in the UTXO index. -/
def utxoSum (u : UtxoSet) : Nat := (u.map (fun e => e.2.value)).sum

/-! ## Mempool (`mempool.py`)

An insertion-ordered dict `txid -> Transaction`. -/

structure Mempool where
  transactions : List (String × Transaction)
deriving Repr, DecidableEq

def mempoolContains (mp : Mempool) (txid : String) : Bool :=
  mp.transactions.any (fun e => e.1 == txid)

/-- `Mempool.add_transaction`: reject a present txid, else insert (append,
CPython dict insertion order). -/
def add_transaction (mp : Mempool) (tx : Transaction) : Bool × Mempool :=
  if mempoolContains mp tx.txid then (false, mp)
  else (true, ⟨mp.transactions ++ [(tx.txid, tx)]⟩)

/-- `Mempool.remove_transaction`: `pop(txid, None)`, idempotent. -/
def remove_transaction (mp : Mempool) (txid : String) : Mempool :=
  ⟨mp.transactions.filter (fun e => e.1 ≠ txid)⟩

/-- `Mempool.get_transactions(limit)`: `list(self.transactions.values())`,
truncated by `txs[:limit]` under `if limit:` — so a `None` **or zero** limit
returns the whole list (Python falsiness of `0`). -/
def get_transactions (mp : Mempool) (limit : Option Nat) : List Transaction :=
  let txs := mp.transactions.map Prod.snd
  match limit with
  | none => txs
  | some 0 => txs
  | some n => txs.take n

/-! ## Peer message handling (`p2p.py`)

`P2PNode.handle_message` dispatches on the message type.  Only its effect on
the node state (blockchain, mempool) is modelled; printing and socket sends
are effect-free on that state.  In the source, the `NEW_TX` and `NEW_BLOCK`
branches only log and `pass` (marked TODO), `REQUEST_CHAIN` triggers
`send_chain` (network only), and `SEND_CHAIN` reconstructs the blocks and
calls `replace_chain`.  The payloads are modelled already parsed; the
`SEND_CHAIN` reconstruction rebuilds exactly the transmitted fields. -/

inductive P2PMessage where
  | NEW_TX (tx : Transaction)
  | NEW_BLOCK (b : Block)
  | REQUEST_CHAIN
  | SEND_CHAIN (chain : List Block)
  | unknown

def handle_message (bc : Blockchain) (mp : Mempool) :
    P2PMessage → Blockchain × Mempool
  | .NEW_TX _ => (bc, mp)
  | .NEW_BLOCK _ => (bc, mp)
  | .REQUEST_CHAIN => (bc, mp)
  | .SEND_CHAIN chain => ((replace_chain bc chain).2, mp)
  | .unknown => (bc, mp)

/-! ## `crypto_utils.verify_signature`

The function body is a `try` block running, in order,
`ecdsa.VerifyingKey.from_string` (raises `MalformedPointError` on a byte
string whose length is not one of the encodings' 64, 65 or 33, or that does
not parse as a curve point), `bytes.fromhex` (raises `ValueError` on a
malformed hex string), and `vk.verify` (returns `True` or raises
`BadSignatureError`), with an `except` clause catching **only**
`ecdsa.BadSignatureError`.  The curve math of the ecdsa library is
abstracted as the two oracles `parseOk` (the point parses) and `verifyOk`
(the signature verifies); the exception control flow is modelled exactly. -/

inductive PyExc where
  | MalformedPointError
  | ValueError
deriving Repr, DecidableEq

def hexVal (c : Char) : Option Nat :=
  if 48 ≤ c.toNat ∧ c.toNat ≤ 57 then some (c.toNat - 48)
  else if 97 ≤ c.toNat ∧ c.toNat ≤ 102 then some (c.toNat - 87)
  else if 65 ≤ c.toNat ∧ c.toNat ≤ 70 then some (c.toNat - 55)
  else none

/-- `bytes.fromhex` (whitespace-free case): `none` exactly when Python
raises `ValueError` (odd length or a non-hex character). -/
def bytesFromHex : List Char → Option (List Nat)
  | [] => some []
  | [_] => none
  | c1 :: c2 :: rest =>
    match hexVal c1, hexVal c2, bytesFromHex rest with
    | some h, some l, some bs => some ((16 * h + l) :: bs)
    | _, _, _ => none

/-- Lengths accepted by `VerifyingKey.from_string` for secp256k1: raw (64),
prefixed uncompressed/hybrid (65), compressed (33). -/
def pubkeyLenOk (n : Nat) : Bool := n == 64 || n == 65 || n == 33

def verify_signature (parseOk : List Nat → Bool)
    (verifyOk : List Nat → List Nat → List Nat → Bool)
    (public_key_bytes : List Nat) (data : List Nat) (signature_hex : String) :
    Except PyExc Bool :=
  if pubkeyLenOk public_key_bytes.length && parseOk public_key_bytes then
    match bytesFromHex signature_hex.data with
    | none => .error .ValueError
    | some sig =>
        -- `vk.verify` returns True or raises BadSignatureError, which the
        -- `except` clause catches and turns into `return False`.
        .ok (verifyOk public_key_bytes data sig)
  else
    .error .MalformedPointError

/-- `crypto_utils.pubkey_to_address`: the SHA-256 hex digest of the pubkey
bytes (spec section 4.1: `address = sha256(pubkey_bytes)` as hex). -/
def pubkey_to_address (pubkey_bytes : List Nat) : String := sha256 pubkey_bytes

/-! ## Concrete states used by the counterexamples

A fresh node whose genesis timestamps are both 0, its genesis transaction id
and block hash (SHA-256 digests of the canonical JSON, checked below by
evaluation), and two proof-of-work-valid blocks found by nonce search over
the very same serialization. -/

def gTxid : String := "dcf189e5d0392666efdd4b31d57167de03b032fb3d9da5fb0cdf058620fae561"

def gHash : String := "c174c2266890f26450a2508ed74d6674f6f1148ba974dcf1379849ee7185913f"

/-- The genesis transaction of a `ts = 0` node, all fields literal. -/
def gTx : Transaction :=
  { inputs := [], outputs := [{ value := 50, address := "genesis_miner" }],
    txid := gTxid, is_coinbase := true, timestamp := 0 }

/-- The genesis block of a `ts = 0` node, all fields literal. -/
def gBlock : Block :=
  { index := 0,
    prev_hash := "0000000000000000000000000000000000000000000000000000000000000000",
    transactions := [gTx], nonce := 0, timestamp := 0, hash := gHash }

/-- The fresh `ts = 0` node in literal form. -/
def bcLit : Blockchain :=
  { chain := [gBlock], utxo_set := [((gTxid, 0), { value := 50, address := "genesis_miner" })] }

/-- A transaction spending the 50-coin genesis UTXO but paying out only 30:
`validate_transaction` admits it (`input_sum >= output_sum`), destroying 20
units.  Its `txid` field is arbitrary — nothing validates it. -/
def feeTx : Transaction :=
  { inputs := [{ txid := gTxid, index := 0, signature := "", pubkey := "" }],
    outputs := [{ value := 30, address := "x" }],
    txid := "feetx", is_coinbase := false, timestamp := 0 }

/-- A proof-of-work-valid height-1 block containing only `feeTx`
(nonce found by search; the hash is recomputed and checked below). -/
def feeBlock : Block :=
  { index := 1, prev_hash := gHash, transactions := [feeTx], nonce := 96, timestamp := 0,
    hash := "00002c0fd209e77516a34a27d6a0959639c113a7839c46a9fd0674bcb342aa41" }

/-- A proof-of-work-valid block whose `index` is 99 instead of 1: correctly
linked to genesis by `prev_hash`, difficulty met, hash recomputes — only the
height is wrong. -/
def idxBlock : Block :=
  { index := 99, prev_hash := gHash, transactions := [], nonce := 40299, timestamp := 0,
    hash := "000073eb74a45965e7ade5fb643c65cc8239ba96f00f70048502a22c6cd7f7a5" }

/-! ## Further fixtures for the claims -/

/-- A UTXO set with a single 7-valued entry, for the duplicate-spend claim. -/
def dupUtxo : UtxoSet := [(("aa", 0), { value := 7, address := "addr1" })]

/-- A transaction listing the same input twice, with outputs worth twice the
referenced UTXO. -/
def dupTx : Transaction :=
  { inputs := [{ txid := "aa", index := 0, signature := "", pubkey := "" },
               { txid := "aa", index := 0, signature := "", pubkey := "" }],
    outputs := [{ value := 14, address := "bob" }],
    txid := "t", is_coinbase := false, timestamp := 0 }

/-- A UTXO set whose single entry's address is not any SHA-256 digest of the
spender's pubkey. -/
def sigUtxo : UtxoSet := [(("aa", 0), { value := 50, address := "deadbeef" })]

/-- A non-coinbase transaction spending `sigUtxo`'s entry with a nonsense
signature and an empty pubkey. -/
def sigTx : Transaction :=
  { inputs := [{ txid := "aa", index := 0, signature := "nonsense", pubkey := "" }],
    outputs := [{ value := 50, address := "bob" }],
    txid := "t", is_coinbase := false, timestamp := 0 }

/-- Rewrite every input's signature and pubkey (position-wise), leaving all
other fields alone — a harness for stating that validation never reads them. -/
def setSigs (sigf pkf : Nat → String) : Nat → List TxInput → List TxInput
  | _, [] => []
  | i, inp :: rest =>
      { inp with signature := sigf i, pubkey := pkf i } :: setSigs sigf pkf (i + 1) rest

def setInputSigs (tx : Transaction) (sigf pkf : Nat → String) : Transaction :=
  { tx with inputs := setSigs sigf pkf 0 tx.inputs }

/-- Adjacent pairs `(chain[i-1], chain[i])`, the per-iteration view of the
`is_valid_chain` loop. -/
def adjPairs : List Block → List (Block × Block)
  | b1 :: b2 :: rest => (b1, b2) :: adjPairs (b2 :: rest)
  | _ => []

/-- Two placeholder transactions for the mempool claims. -/
def mpTx1 : Transaction :=
  { inputs := [], outputs := [], txid := "t1", is_coinbase := false, timestamp := 0 }

def mpTx2 : Transaction :=
  { inputs := [], outputs := [], txid := "t2", is_coinbase := false, timestamp := 0 }

def mp2 : Mempool := ⟨[("t1", mpTx1), ("t2", mpTx2)]⟩

/-- A block whose `prev_hash` cannot match any tip: used to exercise the
rejection path of `add_block`. -/
def badBlock : Block :=
  { index := 1, prev_hash := "zz", transactions := [], nonce := 0, timestamp := 0, hash := "" }

/-! ## Conservation predicates

`validate_transaction` only enforces `input_sum >= output_sum`, so the
UTXO-sum invariant claimed by the spec needs the stronger, *conservative*
side conditions made explicit here: a transaction spends pairwise-distinct
existing UTXOs totalling exactly its outputs (non-coinbase), its txid does
not collide with keys already in the index, and a block's coinbase outputs
total exactly `BLOCK_REWARD`. -/

/-- Sum of the referenced values of a key list (0 for a missing key). -/
def spentSum (u : UtxoSet) : List UtxoKey → Nat
  | [] => 0
  | k :: rest => (match dictGet u k with | some o => o.value | none => 0) + spentSum u rest

/-- Total coinbase output value of a block. -/
def coinbaseTotal (b : Block) : Nat :=
  (b.transactions.map (fun tx => if tx.is_coinbase then outputSum tx else 0)).sum

/-- The transaction's id collides with no key in the index. -/
def TxidFresh (u : UtxoSet) (tx : Transaction) : Prop := ∀ p ∈ u, p.1.1 ≠ tx.txid

/-- A conservative transaction relative to the current index. -/
def ConsTx (u : UtxoSet) (tx : Transaction) : Prop :=
  TxidFresh u tx ∧
  (tx.is_coinbase = false →
    (txInKeys tx).Nodup ∧ (∀ k ∈ txInKeys tx, dictContains u k = true) ∧
    outputSum tx = spentSum u (txInKeys tx))

/-- Every transaction conservative relative to the running intra-block state. -/
def ConsTxs : UtxoSet → List Transaction → Prop
  | _, [] => True
  | u, tx :: rest => ConsTx u tx ∧ ConsTxs (applyTx u tx) rest

def ConsBlock (u : UtxoSet) (b : Block) : Prop :=
  ConsTxs u b.transactions ∧ coinbaseTotal b = BLOCK_REWARD

/-- Every block of a chain conservative relative to the replayed state. -/
def ConsChain : UtxoSet → List Block → Prop
  | _, [] => True
  | u, b :: rest => ConsBlock u b ∧ ConsChain (update_utxo_set u b) rest

/-- Reachability by successful `add_block` and `replace_chain` calls whose
committed blocks are, additionally, conservative. -/
inductive ConsReachable : Blockchain → Prop where
  | genesis (txTs blockTs : Nat) : ConsReachable (initBlockchain txTs blockTs)
  | addBlock {bc : Blockchain} (b : Block) : ConsReachable bc →
      (add_block bc b).1 = true → ConsBlock bc.utxo_set b →
      ConsReachable (add_block bc b).2
  | replaceChain {bc : Blockchain} (c : List Block) : ConsReachable bc →
      (replace_chain bc c).1 = true → ConsChain [] c →
      ConsReachable (replace_chain bc c).2

/-! ### One-time hash evaluations

Each lemma below forces exactly one SHA-256 kernel evaluation; every later
proof rewrites with these instead of re-evaluating digests. -/

set_option maxRecDepth 100000

theorem gTx_hash_eval :
    Transaction.compute_hash
      { inputs := [], outputs := [{ value := 50, address := "genesis_miner" }],
        txid := "", is_coinbase := true, timestamp := 0 } = gTxid := by decide

theorem gBlockPre_hash_eval :
    Block.compute_hash
      { index := 0,
        prev_hash := "0000000000000000000000000000000000000000000000000000000000000000",
        transactions := [gTx], nonce := 0, timestamp := 0, hash := "" } = gHash := by decide

theorem feeBlock_hash_eval : Block.compute_hash feeBlock = feeBlock.hash := by decide

theorem idxBlock_hash_eval : Block.compute_hash idxBlock = idxBlock.hash := by decide

theorem sha256_nil_eval :
    sha256 [] = "e3b0c44298fc1c149afbf4c8996fb92427ae41e4649b934ca495991b7852b855" := by decide

/-- `Block.compute_hash` does not read the stored `hash` field. -/
theorem block_hash_irrel (b : Block) (s : String) :
    Block.compute_hash { b with hash := s } = Block.compute_hash b := rfl

/-- `Transaction.compute_hash` does not read the stored `txid` field. -/
theorem tx_hash_irrel (tx : Transaction) (s : String) :
    Transaction.compute_hash { tx with txid := s } = Transaction.compute_hash tx := rfl

/-- `create_coinbase` on the genesis parameters yields the literal `gTx`. -/
theorem create_coinbase_eval :
    Transaction.create_coinbase "genesis_miner" BLOCK_REWARD 0 = gTx := by
  show { inputs := [], outputs := [{ value := 50, address := "genesis_miner" }],
         txid := Transaction.compute_hash
           { inputs := [], outputs := [{ value := 50, address := "genesis_miner" }],
             txid := "", is_coinbase := true, timestamp := 0 },
         is_coinbase := true, timestamp := 0 } = gTx
  rw [gTx_hash_eval]
  exact rfl

/-- The `ts = 0` genesis block is exactly the literal `gBlock`. -/
theorem mkGenesisBlock_eval : mkGenesisBlock 0 0 = gBlock := by
  unfold mkGenesisBlock
  rw [create_coinbase_eval]
  show { index := 0,
         prev_hash := "0000000000000000000000000000000000000000000000000000000000000000",
         transactions := [gTx], nonce := 0, timestamp := 0,
         hash := Block.compute_hash
           { index := 0,
             prev_hash := "0000000000000000000000000000000000000000000000000000000000000000",
             transactions := [gTx], nonce := 0, timestamp := 0, hash := "" } } = gBlock
  rw [gBlockPre_hash_eval]
  exact rfl

/-- The fresh `ts = 0` node is exactly the literal state. -/
theorem initBlockchain_eval : initBlockchain 0 0 = bcLit := by
  unfold initBlockchain
  rw [mkGenesisBlock_eval]
  exact rfl

/-- The (recomputed) hash of the literal genesis block. -/
theorem gBlock_hash_eval : Block.compute_hash gBlock = gHash := by
  rw [show Block.compute_hash gBlock = Block.compute_hash
      { index := 0,
        prev_hash := "0000000000000000000000000000000000000000000000000000000000000000",
        transactions := [gTx], nonce := 0, timestamp := 0, hash := "" } from rfl]
  exact gBlockPre_hash_eval

end MiniBitcoin


namespace MiniBitcoin

/-- C9: the txid is a fixed point of recomputation: `compute_hash` ignores the
stored `txid` field, so a transaction whose txid was set to `compute_hash()` —
in particular any `create_coinbase` result — recomputes to the stored value. -/
theorem C9_txid_fixed_point :
    (∀ (tx : Transaction) (s : String),
        Transaction.compute_hash { tx with txid := s } = Transaction.compute_hash tx) ∧
    (∀ (addr : String) (reward ts : Nat),
        Transaction.compute_hash (Transaction.create_coinbase addr reward ts)
          = (Transaction.create_coinbase addr reward ts).txid) ∧
    (∀ tx : Transaction,
        Transaction.compute_hash { tx with txid := Transaction.compute_hash tx }
          = Transaction.compute_hash tx) :=
  ⟨fun _ _ => rfl, fun _ _ _ => rfl, fun _ => rfl⟩

/-- C10: `validate_transaction` admits duplicate spends of one UTXO within a
single transaction: with a single 7-valued UTXO, a non-coinbase transaction
listing that input twice and outputs totalling 14 is accepted, the loop having
added the referenced value once per occurrence of the input. -/
theorem C10_duplicate_spend :
    validate_transaction dupUtxo dupTx = true ∧
    dupTx.is_coinbase = false ∧
    dupTx.inputs.length = 2 ∧
    dupTx.inputs.get? 0 = dupTx.inputs.get? 1 ∧
    dictGet dupUtxo ("aa", 0) = some { value := 7, address := "addr1" } ∧
    inputSumLoop dupUtxo dupTx.inputs = some (2 * 7) ∧
    outputSum dupTx = 2 * 7 := by
  refine ⟨by decide, rfl, rfl, rfl, by decide, by decide, rfl⟩

/-- C2: contrary to the claim, a `NEW_TX` message is not admitted to the
mempool: `handle_message` leaves the node state unchanged on `NEW_TX` (the
source handler only logs and passes, marked TODO), so a well-formed `NEW_TX`
carrying a fresh txid leaves the mempool without that transaction. -/
theorem C2_new_tx_not_admitted :
    (∀ (bc : Blockchain) (mp : Mempool) (tx : Transaction),
        handle_message bc mp (.NEW_TX tx) = (bc, mp)) ∧
    (handle_message bcLit ⟨[]⟩ (.NEW_TX mpTx1)).2.transactions = [] ∧
    mempoolContains (handle_message bcLit ⟨[]⟩ (.NEW_TX mpTx1)).2 mpTx1.txid = false :=
  ⟨fun _ _ _ => rfl, rfl, rfl⟩

/-- C5: contrary to the claim, `verify_signature` can raise instead of
returning false: a public key of wrong length (here 3 bytes) propagates
`MalformedPointError` out of `VerifyingKey.from_string`, and malformed
signature hex (here "zz") propagates `ValueError` out of `bytes.fromhex` —
the `except` clause catches only `BadSignatureError`. -/
theorem C5_verify_signature_raises :
    (∀ (parseOk : List Nat → Bool) (verifyOk : List Nat → List Nat → List Nat → Bool)
        (data : List Nat) (sigHex : String),
        verify_signature parseOk verifyOk [1, 2, 3] data sigHex = .error .MalformedPointError) ∧
    (∀ (parseOk : List Nat → Bool) (verifyOk : List Nat → List Nat → List Nat → Bool)
        (data : List Nat),
        parseOk (List.replicate 64 1) = true →
        verify_signature parseOk verifyOk (List.replicate 64 1) data "zz" = .error .ValueError) := by
  constructor
  · intro parseOk verifyOk data sigHex
    rfl
  · intro parseOk verifyOk data h
    simp only [verify_signature, List.length_replicate, pubkeyLenOk, h]
    rfl

/-- Witness for C5 at concrete oracles and inputs. -/
theorem C5_witness :
    verify_signature (fun _ => true) (fun _ _ _ => false) [1, 2, 3] [] "" = .error .MalformedPointError ∧
    verify_signature (fun _ => true) (fun _ _ _ => false) (List.replicate 64 1) [] "zz" = .error .ValueError :=
  ⟨C5_verify_signature_raises.1 _ _ [] "", C5_verify_signature_raises.2 _ _ [] rfl⟩

/-- C7: rejection is atomic: whenever `add_block` or `replace_chain` returns
false, the returned state is exactly the pre-call state — neither the chain
nor the UTXO index is mutated. -/
theorem C7_rejection_atomic :
    (∀ (bc : Blockchain) (b : Block),
        (add_block bc b).1 = false → (add_block bc b).2 = bc) ∧
    (∀ (bc : Blockchain) (c : List Block),
        (replace_chain bc c).1 = false → (replace_chain bc c).2 = bc) := by
  constructor
  · intro bc b h
    by_cases hv : is_valid_new_block bc.utxo_set b (last_block bc) = true
    · simp [add_block, hv] at h
    · simp [add_block, hv]
  · intro bc c h
    by_cases hl : c.length ≤ bc.chain.length
    · simp [replace_chain, hl]
    · by_cases hv : is_valid_chain bc c = true
      · simp [replace_chain, hl, hv] at h
      · simp [replace_chain, hl, hv]

/-- Witness for C7: a block with an unlinkable prev-hash and an empty
candidate chain are both rejected, leaving the literal state intact. -/
theorem C7_witness :
    (add_block bcLit badBlock).1 = false ∧ (add_block bcLit badBlock).2 = bcLit ∧
    (replace_chain bcLit []).1 = false ∧ (replace_chain bcLit []).2 = bcLit :=
  ⟨by decide, C7_rejection_atomic.1 bcLit badBlock (by decide),
   by decide, C7_rejection_atomic.2 bcLit [] (by decide)⟩

/-- C6: `replace_chain` succeeds exactly when the candidate is strictly longer
and `is_valid_chain` holds; on success the chain becomes the candidate and the
UTXO index equals the replay of every candidate block, in order, from an empty
index; an equal-length candidate is rejected and the local state kept. -/
theorem C6_replace_chain_spec :
    (∀ (bc : Blockchain) (nc : List Block),
        ((replace_chain bc nc).1 = true ↔
          bc.chain.length < nc.length ∧ is_valid_chain bc nc = true)) ∧
    (∀ (bc : Blockchain) (nc : List Block),
        (replace_chain bc nc).1 = true →
        (replace_chain bc nc).2 =
          { chain := nc, utxo_set := nc.foldl update_utxo_set [] }) ∧
    (∀ (bc : Blockchain) (nc : List Block),
        nc.length = bc.chain.length →
        (replace_chain bc nc).1 = false ∧ (replace_chain bc nc).2 = bc) := by
  refine ⟨fun bc nc => ?_, fun bc nc h => ?_, fun bc nc h => ?_⟩
  · by_cases hl : nc.length ≤ bc.chain.length
    · simp [replace_chain, hl]
    · by_cases hv : is_valid_chain bc nc = true
      · simp [replace_chain, hl, hv]
        omega
      · simp [replace_chain, hl, hv]
  · by_cases hl : nc.length ≤ bc.chain.length
    · simp [replace_chain, hl] at h
    · by_cases hv : is_valid_chain bc nc = true
      · simp [replace_chain, hl, hv]
      · simp [replace_chain, hl, hv] at h
  · have hl : nc.length ≤ bc.chain.length := le_of_eq h
    simp [replace_chain, hl]

/-- Witness for C6: an equal-length candidate is rejected, state kept. -/
theorem C6_witness :
    (replace_chain bcLit [gBlock]).1 = false ∧ (replace_chain bcLit [gBlock]).2 = bcLit :=
  C6_replace_chain_spec.2.2 bcLit [gBlock] rfl

/-- C8 counterexample: with two transactions in the mempool,
`get_transactions(limit=0)` returns both — `if limit:` is false for 0, so the
zero limit is ignored instead of capping the result at 0 transactions. -/
theorem C8_cex :
    (get_transactions mp2 (some 0)).length = 2 ∧
    0 < (get_transactions mp2 (some 0)).length := by
  refine ⟨rfl, by decide⟩

/-- C8 amended: for every positive limit n, `get_transactions` returns the
first n transactions in insertion order (hence at most n); a limit of 0
behaves like no limit and returns the whole pool in insertion order. -/
theorem C8_amended (mp : Mempool) (n : Nat) (h : 0 < n) :
    get_transactions mp (some n) = (mp.transactions.map Prod.snd).take n ∧
    (get_transactions mp (some n)).length ≤ n ∧
    get_transactions mp (some 0) = mp.transactions.map Prod.snd := by
  match n, h with
  | n + 1, _ =>
    refine ⟨rfl, ?_, rfl⟩
    show ((mp.transactions.map Prod.snd).take (n + 1)).length ≤ n + 1
    rw [List.length_take]
    omega

/-- Witness for C8 at the two-transaction pool and limit 1. -/
theorem C8_witness :
    get_transactions mp2 (some 1) = (mp2.transactions.map Prod.snd).take 1 ∧
    (get_transactions mp2 (some 1)).length ≤ 1 ∧
    get_transactions mp2 (some 0) = mp2.transactions.map Prod.snd :=
  C8_amended mp2 1 (by decide)

end MiniBitcoin

namespace MiniBitcoin

theorem setSigs_keys (sigf pkf : Nat → String) :
    ∀ (l : List TxInput) (i : Nat) (u : UtxoSet),
      inputSumLoop u (setSigs sigf pkf i l) = inputSumLoop u l := by
  intro l
  induction l with
  | nil => intro i u; rfl
  | cons inp rest ih =>
      intro i u
      show inputSumLoop u ({ inp with signature := sigf i, pubkey := pkf i } :: setSigs sigf pkf (i+1) rest)
            = inputSumLoop u (inp :: rest)
      simp only [inputSumLoop]
      rw [ih]

/-- C1 amended: `validate_transaction` never reads signatures or pubkeys — its
verdict is invariant under rewriting all of them — and for a non-coinbase
transaction it accepts exactly when every input references a present UTXO
entry and the referenced values (counted once per occurrence) sum to at least
the output total.  No ECDSA verification or pubkey-address check occurs. -/
theorem C1_amended :
    (∀ (u : UtxoSet) (tx : Transaction) (sigf pkf : Nat → String),
        validate_transaction u (setInputSigs tx sigf pkf) = validate_transaction u tx) ∧
    (∀ (u : UtxoSet) (tx : Transaction), tx.is_coinbase = false →
        (validate_transaction u tx = true ↔
          ∃ s, inputSumLoop u tx.inputs = some s ∧ outputSum tx ≤ s)) := by
  constructor
  · intro u tx sigf pkf
    show validate_transaction u { tx with inputs := setSigs sigf pkf 0 tx.inputs }
          = validate_transaction u tx
    unfold validate_transaction
    cases hcb : tx.is_coinbase with
    | true => rfl
    | false =>
        simp only []
        rw [setSigs_keys]
        rfl
  · intro u tx hcb
    unfold validate_transaction
    rw [hcb]
    cases hloop : inputSumLoop u tx.inputs with
    | none => simp
    | some s =>
        by_cases hlt : s < outputSum tx
        · simp [hlt]
        · simp [hlt]
          omega


/-- C1 counterexample: a non-coinbase transaction with a nonsense signature
and an empty pubkey — whose SHA-256, the would-be address, differs from the
referenced UTXO's address "deadbeef" — is accepted by `validate_transaction`. -/
theorem C1_cex :
    validate_transaction sigUtxo sigTx = true ∧
    sigTx.is_coinbase = false ∧
    sigTx.inputs.length = 1 ∧
    dictGet sigUtxo ("aa", 0) = some { value := 50, address := "deadbeef" } ∧
    bytesFromHex ("".data) = some [] ∧
    pubkey_to_address [] ≠ "deadbeef" := by
  refine ⟨by decide, rfl, rfl, by decide, rfl, ?_⟩
  rw [pubkey_to_address, sha256_nil_eval]
  decide

/-- Witness for the amended C1 at the concrete fixture. -/
theorem C1_amended_witness :
    validate_transaction sigUtxo (setInputSigs sigTx (fun _ => "a") (fun _ => "b"))
      = validate_transaction sigUtxo sigTx ∧
    (∃ s, inputSumLoop sigUtxo sigTx.inputs = some s ∧ outputSum sigTx ≤ s) :=
  ⟨C1_amended.1 sigUtxo sigTx _ _, (C1_amended.2 sigUtxo sigTx rfl).mp (by decide)⟩

end MiniBitcoin

namespace MiniBitcoin

/-- C4 counterexample: `is_valid_chain` accepts a chain whose second block has
index 99 (not previous index + 1), even though `is_valid_new_block` rejects
that very block: the index-continuity check is absent from `is_valid_chain`,
and `replace_chain` consequently accepts the chain. -/
theorem C4_cex :
    is_valid_chain (initBlockchain 0 0) [gBlock, idxBlock] = true ∧
    idxBlock.index ≠ gBlock.index + 1 ∧
    is_valid_new_block (initBlockchain 0 0).utxo_set idxBlock gBlock = false ∧
    (replace_chain (initBlockchain 0 0) [gBlock, idxBlock]).1 = true := by
  rw [initBlockchain_eval]
  have hvc : is_valid_chain bcLit [gBlock, idxBlock] = true := by
    unfold is_valid_chain validLinks
    rw [idxBlock_hash_eval, show bcLit.chain = [gBlock] from rfl]
    simp only [List.headD]
    rw [show (gBlock.compute_hash == gBlock.compute_hash) = true from beq_self_eq_true _]
    decide
  refine ⟨hvc, by decide, by decide, ?_⟩
  unfold replace_chain
  rw [hvc]
  decide

theorem validLinks_iff (c : List Block) :
    validLinks c = true ↔
      ∀ p ∈ adjPairs c, p.2.prev_hash = p.1.hash ∧
        pyStartsWith p.2.hash DIFFICULTY_PFX = true ∧ p.2.hash = Block.compute_hash p.2 := by
  induction c with
  | nil => simp [validLinks, adjPairs]
  | cons b1 rest ih =>
      cases rest with
      | nil => simp [validLinks, adjPairs]
      | cons b2 rest2 =>
          rw [show validLinks (b1 :: b2 :: rest2)
                = ((b2.prev_hash == b1.hash &&
                    pyStartsWith b2.hash DIFFICULTY_PFX &&
                    b2.hash == b2.compute_hash) &&
                   validLinks (b2 :: rest2)) from rfl]
          rw [show adjPairs (b1 :: b2 :: rest2) = (b1, b2) :: adjPairs (b2 :: rest2) from rfl]
          rw [Bool.and_eq_true, ih]
          simp only [Bool.and_eq_true, beq_iff_eq, List.mem_cons]
          constructor
          · rintro ⟨⟨⟨h1, h2⟩, h3⟩, h4⟩ p hp
            rcases hp with rfl | hp
            · exact ⟨h1, h2, h3⟩
            · exact h4 p hp
          · intro h
            refine ⟨⟨⟨(h (b1, b2) (Or.inl rfl)).1, (h (b1, b2) (Or.inl rfl)).2.1⟩,
                    (h (b1, b2) (Or.inl rfl)).2.2⟩, fun p hp => h p (Or.inr hp)⟩

/-- C4 amended: `is_valid_chain` checks that the candidate's first block
recomputes to the local genesis hash plus, for each adjacent pair, the prev-
hash link, the difficulty prefix and hash recomputation — but it does not
check index continuity (nor transaction validity). -/
theorem C4_amended (bc : Blockchain) (c : List Block) :
    is_valid_chain bc c = true ↔
      ((c.headD dfltBlock).compute_hash = (bc.chain.headD dfltBlock).compute_hash ∧
       ∀ p ∈ adjPairs c, p.2.prev_hash = p.1.hash ∧
         pyStartsWith p.2.hash DIFFICULTY_PFX = true ∧ p.2.hash = Block.compute_hash p.2) := by
  unfold is_valid_chain
  rw [Bool.and_eq_true, validLinks_iff]
  simp only [beq_iff_eq]

end MiniBitcoin

namespace MiniBitcoin

theorem dictGet_delete_ne (k1 k2 : UtxoKey) (h : k1 ≠ k2) :
    ∀ u : UtxoSet, dictGet (dictDelete u k1) k2 = dictGet u k2 := by
  intro u
  induction u with
  | nil => rfl
  | cons p rest ih =>
      obtain ⟨k', v⟩ := p
      by_cases hk : k' = k1
      · subst hk
        simp [dictDelete, dictGet, h]
      · simp only [dictDelete, if_neg hk, dictGet]
        by_cases hk2 : k' = k2
        · rw [if_pos hk2, if_pos hk2]
        · rw [if_neg hk2, if_neg hk2, ih]

theorem utxoSum_delete (k : UtxoKey) (o : TxOutput) :
    ∀ u : UtxoSet, dictGet u k = some o →
      utxoSum u = utxoSum (dictDelete u k) + o.value := by
  intro u
  induction u with
  | nil => intro h; cases h
  | cons p rest ih =>
      obtain ⟨k', v⟩ := p
      intro h
      by_cases hk : k' = k
      · simp only [dictGet, if_pos hk] at h
        cases h
        simp only [dictDelete, if_pos hk, utxoSum, List.map, List.sum_cons]
        omega
      · simp only [dictGet, if_neg hk] at h
        simp only [dictDelete, if_neg hk, utxoSum, List.map, List.sum_cons]
        have := ih h
        simp only [utxoSum] at this
        omega

theorem spentSum_delete_ne (k : UtxoKey) (u : UtxoSet) :
    ∀ ks : List UtxoKey, k ∉ ks → spentSum (dictDelete u k) ks = spentSum u ks := by
  intro ks
  induction ks with
  | nil => intro _; rfl
  | cons k2 rest ih =>
      intro hmem
      have hne : k ≠ k2 := fun hc => hmem (hc ▸ List.mem_cons_self _ _)
      simp only [spentSum, dictGet_delete_ne k k2 hne, ih (fun hc => hmem (List.mem_cons_of_mem _ hc))]

theorem utxoSum_deleteKeys :
    ∀ (ks : List UtxoKey) (u : UtxoSet), ks.Nodup →
      (∀ k ∈ ks, dictContains u k = true) →
      utxoSum u = utxoSum (ks.foldl dictDelete u) + spentSum u ks := by
  intro ks
  induction ks with
  | nil => intro u _ _; simp [spentSum]
  | cons k rest ih =>
      intro u hnd hall
      have hk : dictContains u k = true := hall k (List.mem_cons_self _ _)
      rw [dictContains, Option.isSome_iff_exists] at hk
      obtain ⟨o, ho⟩ := hk
      have hknotin : k ∉ rest := (List.nodup_cons.mp hnd).1
      have hrest : ∀ k2 ∈ rest, dictContains (dictDelete u k) k2 = true := by
        intro k2 hk2
        have hne : k ≠ k2 := fun hc => hknotin (hc ▸ hk2)
        rw [dictContains, dictGet_delete_ne k k2 hne]
        exact hall k2 (List.mem_cons_of_mem _ hk2)
      have hmain := ih (dictDelete u k) (List.nodup_cons.mp hnd).2 hrest
      show utxoSum u = utxoSum (List.foldl dictDelete (dictDelete u k) rest) + spentSum u (k :: rest)
      rw [utxoSum_delete k o u ho, hmain, spentSum_delete_ne k u rest hknotin]
      simp only [spentSum, ho]
      omega

theorem dictGet_set_ne (k1 k2 : UtxoKey) (v : TxOutput) (h : k1 ≠ k2) :
    ∀ u : UtxoSet, dictGet (dictSet u k1 v) k2 = dictGet u k2 := by
  intro u
  induction u with
  | nil => simp only [dictSet, dictGet, if_neg h]
  | cons p rest ih =>
      obtain ⟨k', v'⟩ := p
      by_cases hk : k' = k1
      · subst hk
        simp [dictSet, dictGet, h]
      · simp only [dictSet, if_neg hk, dictGet]
        by_cases hk2 : k' = k2
        · rw [if_pos hk2, if_pos hk2]
        · rw [if_neg hk2, if_neg hk2, ih]

theorem utxoSum_set_fresh (k : UtxoKey) (v : TxOutput) :
    ∀ u : UtxoSet, dictGet u k = none →
      utxoSum (dictSet u k v) = utxoSum u + v.value := by
  intro u
  induction u with
  | nil => intro _; simp [dictSet, utxoSum]
  | cons p rest ih =>
      obtain ⟨k', v'⟩ := p
      intro h
      by_cases hk : k' = k
      · simp only [dictGet, if_pos hk] at h
        cases h
      · simp only [dictGet, if_neg hk] at h
        simp only [dictSet, if_neg hk, utxoSum, List.map, List.sum_cons]
        have := ih h
        simp only [utxoSum] at this
        omega

theorem utxoSum_insertOutputs (txid : String) :
    ∀ (outs : List TxOutput) (u : UtxoSet) (i : Nat),
      (∀ j, i ≤ j → dictGet u (txid, j) = none) →
      utxoSum (insertOutputs txid u i outs) = utxoSum u + (outs.map TxOutput.value).sum := by
  intro outs
  induction outs with
  | nil => intro u i _; simp [insertOutputs]
  | cons o rest ih =>
      intro u i hfresh
      show utxoSum (insertOutputs txid (dictSet u (txid, i) o) (i + 1) rest)
            = utxoSum u + ((o.value :: rest.map TxOutput.value).sum)
      rw [ih (dictSet u (txid, i) o) (i + 1) ?fresh]
      · rw [utxoSum_set_fresh (txid, i) o u (hfresh i (le_refl i))]
        simp only [List.sum_cons]
        omega
      case fresh =>
        intro j hj
        have hne : (txid, i) ≠ (txid, j) := by
          intro hc
          have : i = j := congrArg Prod.snd hc
          omega
        rw [dictGet_set_ne _ _ _ hne]
        exact hfresh j (by omega)

end MiniBitcoin

namespace MiniBitcoin

theorem mem_dictDelete_sub (k : UtxoKey) :
    ∀ u : UtxoSet, ∀ p ∈ dictDelete u k, p ∈ u := by
  intro u
  induction u with
  | nil => intro p hp; cases hp
  | cons q rest ih =>
      obtain ⟨k', v'⟩ := q
      intro p hp
      by_cases hk : k' = k
      · simp only [dictDelete, if_pos hk] at hp
        exact List.mem_cons_of_mem _ hp
      · simp only [dictDelete, if_neg hk] at hp
        rcases List.mem_cons.mp hp with rfl | hp2
        · exact List.mem_cons_self _ _
        · exact List.mem_cons_of_mem _ (ih p hp2)

theorem mem_foldl_delete_sub :
    ∀ (ks : List UtxoKey) (u : UtxoSet), ∀ p ∈ ks.foldl dictDelete u, p ∈ u := by
  intro ks
  induction ks with
  | nil => intro u p hp; exact hp
  | cons k rest ih =>
      intro u p hp
      exact mem_dictDelete_sub k u p (ih (dictDelete u k) p hp)

theorem dictGet_none_of_keys (k : UtxoKey) :
    ∀ u : UtxoSet, (∀ p ∈ u, p.1 ≠ k) → dictGet u k = none := by
  intro u
  induction u with
  | nil => intro _; rfl
  | cons q rest ih =>
      obtain ⟨k', v'⟩ := q
      intro h
      have hk : k' ≠ k := h (k', v') (List.mem_cons_self _ _)
      simp only [dictGet, if_neg hk]
      exact ih (fun p hp => h p (List.mem_cons_of_mem _ hp))

theorem applyTx_sum (u : UtxoSet) (tx : Transaction) (h : ConsTx u tx) :
    utxoSum (applyTx u tx) = utxoSum u + (if tx.is_coinbase then outputSum tx else 0) := by
  obtain ⟨hfresh, hncb⟩ := h
  unfold applyTx
  cases hcb : tx.is_coinbase with
  | true =>
      simp only [hcb, if_pos rfl, if_true]
      rw [utxoSum_insertOutputs tx.txid tx.outputs u 0 ?fresh]
      · rfl
      case fresh =>
        intro j _
        apply dictGet_none_of_keys
        intro p hp hc
        exact hfresh p hp (by rw [hc])
  | false =>
      obtain ⟨hnd, hpres, hbal⟩ := hncb hcb
      simp only [hcb, if_neg Bool.false_ne_true, if_false]
      have hdel := utxoSum_deleteKeys (txInKeys tx) u hnd hpres
      rw [utxoSum_insertOutputs tx.txid tx.outputs (List.foldl dictDelete u (txInKeys tx)) 0 ?fresh2]
      · have hout : (tx.outputs.map TxOutput.value).sum = outputSum tx := rfl
        omega
      case fresh2 =>
        intro j _
        apply dictGet_none_of_keys
        intro p hp hc
        exact hfresh p (mem_foldl_delete_sub (txInKeys tx) u p hp) (by rw [hc])

theorem consTxs_sum :
    ∀ (txs : List Transaction) (u : UtxoSet), ConsTxs u txs →
      utxoSum (txs.foldl applyTx u) =
        utxoSum u + (txs.map (fun tx => if tx.is_coinbase then outputSum tx else 0)).sum := by
  intro txs
  induction txs with
  | nil => intro u _; simp
  | cons tx rest ih =>
      intro u h
      obtain ⟨h1, h2⟩ := h
      show utxoSum (List.foldl applyTx (applyTx u tx) rest) = _
      rw [ih _ h2, applyTx_sum u tx h1]
      simp only [List.map, List.sum_cons]
      omega

theorem consBlock_sum (u : UtxoSet) (b : Block) (h : ConsBlock u b) :
    utxoSum (update_utxo_set u b) = utxoSum u + BLOCK_REWARD := by
  obtain ⟨h1, h2⟩ := h
  rw [update_utxo_set, consTxs_sum _ _ h1]
  rw [coinbaseTotal] at h2
  omega

theorem consChain_sum :
    ∀ (c : List Block) (u : UtxoSet), ConsChain u c →
      utxoSum (c.foldl update_utxo_set u) = utxoSum u + BLOCK_REWARD * c.length := by
  intro c
  induction c with
  | nil => intro u _; simp
  | cons b rest ih =>
      intro u h
      obtain ⟨h1, h2⟩ := h
      show utxoSum (List.foldl update_utxo_set (update_utxo_set u b) rest) = _
      rw [ih _ h2, consBlock_sum u b h1]
      simp only [List.length_cons]
      ring

theorem add_block_true_elim (bc : Blockchain) (b : Block) (h : (add_block bc b).1 = true) :
    (add_block bc b).2 =
      { chain := bc.chain ++ [b], utxo_set := update_utxo_set bc.utxo_set b } := by
  by_cases hv : is_valid_new_block bc.utxo_set b (last_block bc) = true
  · simp [add_block, hv]
  · simp [add_block, hv] at h

theorem replace_chain_true_elim (bc : Blockchain) (c : List Block)
    (h : (replace_chain bc c).1 = true) :
    (replace_chain bc c).2 = { chain := c, utxo_set := c.foldl update_utxo_set [] } := by
  by_cases hl : c.length ≤ bc.chain.length
  · simp [replace_chain, hl] at h
  · by_cases hv : is_valid_chain bc c = true
    · simp [replace_chain, hl, hv]
    · simp [replace_chain, hl, hv] at h

/-- C3 amended: the UTXO total equals `BLOCK_REWARD * chain length` for states
reachable by successful `add_block`/`replace_chain` calls whose committed
blocks are additionally conservative: non-coinbase transactions spend
pairwise-distinct existing UTXOs totalling exactly their outputs, txids are
fresh, and each block's coinbase outputs total exactly `BLOCK_REWARD`.
Without these side conditions the code admits fee-destroying and duplicate-
spending transactions that break the invariant. -/
theorem C3_amended (bc : Blockchain) (h : ConsReachable bc) :
    utxoSum bc.utxo_set = BLOCK_REWARD * bc.chain.length := by
  induction h with
  | genesis a b => rfl
  | addBlock b hr hadd hcons ih =>
      rename_i bc'
      rw [add_block_true_elim bc' b hadd]
      show utxoSum (update_utxo_set bc'.utxo_set b) = BLOCK_REWARD * (bc'.chain ++ [b]).length
      rw [consBlock_sum _ _ hcons, ih]
      simp [List.length_append]
      ring
  | replaceChain c hr hrep hcons ih =>
      rename_i bc'
      rw [replace_chain_true_elim bc' c hrep]
      show utxoSum (c.foldl update_utxo_set []) = BLOCK_REWARD * c.length
      rw [consChain_sum c [] hcons]
      show 0 + BLOCK_REWARD * c.length = BLOCK_REWARD * c.length
      omega

/-- Witness for the amended C3: the fresh node itself. -/
theorem C3_amended_witness :
    utxoSum (initBlockchain 0 0).utxo_set = BLOCK_REWARD * (initBlockchain 0 0).chain.length :=
  C3_amended _ (ConsReachable.genesis 0 0)

theorem add_feeBlock_eval :
    add_block bcLit feeBlock =
      (true, { chain := [gBlock, feeBlock],
               utxo_set := [(("feetx", 0), { value := 30, address := "x" })] }) := by
  have hv : is_valid_new_block bcLit.utxo_set feeBlock (last_block bcLit) = true := by
    unfold is_valid_new_block
    rw [feeBlock_hash_eval]
    decide
  simp only [add_block, hv, if_true]
  decide

/-- C3 counterexample: a reachable state violating the claimed invariant: from
a fresh node, `add_block` accepts a proof-of-work-valid block whose only
transaction spends the 50-coin genesis UTXO but pays out 30 (the code only
requires `input_sum >= output_sum`), leaving a UTXO total of 30 on a chain of
length 2, where the claim demands 100. -/
theorem C3_cex :
    ∃ bc : Blockchain, Reachable bc ∧ utxoSum bc.utxo_set ≠ BLOCK_REWARD * bc.chain.length := by
  refine ⟨(add_block (initBlockchain 0 0) feeBlock).2,
          Reachable.addBlock feeBlock (Reachable.genesis 0 0) ?h1, ?h2⟩
  case h1 =>
    rw [initBlockchain_eval, add_feeBlock_eval]
  case h2 =>
    rw [initBlockchain_eval, add_feeBlock_eval]
    decide

end MiniBitcoin
